import Mathlib

/-!
Verification development for the nodejs-ha client library.

The development shallowly embeds the three core source modules:

* the value codec (converter: toAny / fromAny and the varint helpers),
* the single-stream request multiplexer (HAClient: the query-stream data
  handler tracking txseq, and the send path with its shared awaiting slot),
* the embedded-replica registry and the consistency router
  (EmbeddedReplicasManager and HAConnection).

Modelling conventions, used throughout:

* Node Buffers are byte lists (List Nat, each entry < 256).  Writing a value
  v into a Uint8Array cell stores v mod 256; writing past the end of an
  allocated Buffer is silently dropped, and subarray clamps its end bound to
  the buffer length — both behaviours are reproduced where the source relies
  on them (the 9-, 11- and 20-byte allocations in toAny).
* JavaScript strings are represented by their UTF-8 byte lists where they
  travel through the codec, and by List Char where the router inspects their
  characters; catalog names, which are only compared for equality, stay
  Lean Strings.
* JavaScript numbers are represented exactly: integral numbers by Int and
  non-integral numbers by their 8-byte IEEE-754 little-endian bit pattern
  (the codec only ever moves those bytes, never does float arithmetic on
  them).  The conversion Number(bigint) performed by the decoders is
  modelled by roundToDouble, the round-to-nearest ties-to-even conversion of
  a nonnegative integer to the nearest double.  Date construction checks the
  ECMAScript range bound of 8.64e15 milliseconds and produces an Invalid
  Date outside it.
* Asynchronous callbacks run one at a time in Node; the multiplexer model is
  the induced sequential transition system over the handler bodies.
-/

namespace NodejsHA

/-! ## Value codec (converter module) -/

/-- Byte sequence produced by the varint encoders, little-endian base-128
groups with the high bit as continuation flag.  The structural fuel argument
makes the definition kernel-reducible; fuel at least the encoded value is
always sufficient since the value shrinks by a factor 128 each step. -/
def natVarintAux : Nat → Nat → List Nat
  | 0, v => [v]
  | fuel + 1, v => if v < 128 then [v] else (v % 128 + 128) :: natVarintAux fuel (v / 128)

/-- Unbounded varint encoding of a nonnegative integer, as written by
writeVarint64 on a bigint whose unsigned reinterpretation is the input. -/
def natVarint (v : Nat) : List Nat := natVarintAux v v

/-- Varint encoding loop as performed on JavaScript numbers, where the
shift v >>>= 7 truncates to an unsigned 32-bit value before dividing. -/
def natVarint32Aux : Nat → Nat → List Nat
  | 0, v => [v]
  | fuel + 1, v =>
    if v < 128 then [v] else (v % 128 + 128) :: natVarint32Aux fuel (v % 2 ^ 32 / 128)

/-- Source encodeVarint: varint bytes of a nonnegative number length, using
the 32-bit shift of JavaScript numbers. -/
def encodeVarint (v : Nat) : List Nat := natVarint32Aux v v

/-- Source writeVarint64: the byte sequence the loop writes for a bigint.
Negative inputs are first reinterpreted as unsigned 64-bit via
BigInt.asUintN(64, v), which is v mod 2^64. -/
def writeVarint64bytes (v : Int) : List Nat :=
  natVarint (if v < 0 then ((v % (2 ^ 64 : Int)).toNat) else v.toNat)

/-- Source writeVarint32: the byte sequence the loop writes for a number.
For a negative input the loop condition v > 0x7f fails immediately and the
single store coerces the value mod 256, as a Uint8Array cell does. -/
def writeVarint32bytes (v : Int) : List Nat :=
  if 0 ≤ v then encodeVarint v.toNat else [((v % 256).toNat)]

/-- Source decodeVarint inner loop over the bytes after the offset: collect
7-bit groups while the continuation bit is set, stopping early when the
buffer is exhausted.  Returns the accumulated value and the bytes read. -/
def decodeVarintAux : List Nat → Nat → Nat → Nat × Nat
  | [], _, acc => (acc, 0)
  | b :: rest, shift, acc =>
    let acc2 := acc + b % 128 * 2 ^ shift
    if b < 128 then (acc2, 1)
    else
      let r := decodeVarintAux rest (shift + 7) acc2
      (r.1, r.2 + 1)

/-- Source decodeVarint on a buffer at an offset. -/
def decodeVarint (buf : List Nat) (offset : Nat) : Nat × Nat :=
  decodeVarintAux (buf.drop offset) 0 0

/-- Typed envelope exchanged on the wire: google.protobuf.Any with a type
url string and a payload byte buffer. -/
structure AnyValue where
  type_url : String
  value : List Nat
deriving DecidableEq, Repr

/-- Common prefix of every supported type url. -/
def typeUrlBase : String := "type.googleapis.com/google.protobuf."

deriving instance DecidableEq for Except

/-- JavaScript values moved through the codec.  Strings and byte sequences
carry their byte lists; integral numbers carry their exact integer value;
non-integral numbers carry their IEEE-754 bit pattern; dates carry their
epoch-millisecond value, with invalidDate standing for an Invalid Date
(epoch milliseconds beyond the ECMAScript range, getTime() = NaN).  The
floatNum constructor only arises from decoding a FloatValue (there is no
distinct float runtime type in JavaScript to encode), so toAny treats it
like any unrecognized input and fails. -/
inductive JSValue where
  | null
  | str (bytes : List Nat)
  | intNum (v : Int)
  | doubleNum (bits : List Nat)
  | floatNum (bits : List Nat)
  | bigint (v : Int)
  | bool (b : Bool)
  | date (ms : Int)
  | invalidDate
  | bytes (bs : List Nat)
deriving DecidableEq, Repr

/-- Source toAny: encode a JavaScript value into a typed envelope.  Buffer
allocations are modelled by the final take: alloc(9) for the number path,
alloc(11) for the bigint path and alloc(20) for the timestamp path drop any
bytes the varint writer would place past the end, and the closing subarray
clamps to the allocation size.  An Invalid Date reaches the Date branch but
BigInt(Math.floor(NaN)) throws the RangeError modelled in its arm. -/
def toAny : JSValue → Except String AnyValue
  | .null => .ok ⟨typeUrlBase ++ "Empty", []⟩
  | .str s => .ok ⟨typeUrlBase ++ "StringValue", 0x0a :: (encodeVarint s.length ++ s)⟩
  | .intNum v => .ok ⟨typeUrlBase ++ "Int64Value", (0x08 :: writeVarint64bytes v).take 9⟩
  | .doubleNum bits =>
    .ok ⟨typeUrlBase ++ "DoubleValue", 0x09 :: ((bits ++ List.replicate 8 0).take 8)⟩
  | .floatNum _ => .error ("Unsupported type: object")
  | .invalidDate =>
    .error ("The number NaN cannot be converted to a BigInt because it is not an integer")
  | .bigint v => .ok ⟨typeUrlBase ++ "Int64Value", (0x08 :: writeVarint64bytes v).take 11⟩
  | .bool b => .ok ⟨typeUrlBase ++ "BoolValue", [0x08, if b then 1 else 0]⟩
  | .date ms =>
    let seconds : Int := Int.fdiv ms 1000
    let nanos : Int := Int.tmod ms 1000 * 1000000
    .ok ⟨typeUrlBase ++ "Timestamp",
      (0x08 :: writeVarint64bytes seconds ++ 0x10 :: writeVarint32bytes nanos).take 20⟩
  | .bytes bs => .ok ⟨typeUrlBase ++ "BytesValue", 0x0a :: (encodeVarint bs.length ++ bs)⟩

/-- Fuel-based floor of the base-2 logarithm; fuel at least the argument is
always sufficient. -/
def jsLog2Aux : Nat → Nat → Nat
  | 0, _ => 0
  | fuel + 1, n => if n < 2 then 0 else jsLog2Aux fuel (n / 2) + 1

/-- Floor of the base-2 logarithm, kernel-reducible. -/
def jsLog2 (n : Nat) : Nat := jsLog2Aux n n

/-- Round-to-nearest, ties-to-even conversion of a nonnegative integer to
the nearest IEEE-754 double, as the Number(bigint) conversion performs it:
exact below 2^53, otherwise rounded at granularity 2^(log2 n - 52).
(Integers at or beyond 2^1024 would overflow to Infinity; no theorem below
evaluates the model there.) -/
def roundToDouble (n : Nat) : Nat :=
  if n < 2 ^ 53 then n
  else
    let step := 2 ^ (jsLog2 n - 52)
    let q := n / step
    let r := n % step
    if 2 * r < step then q * step
    else if 2 * r > step then (q + 1) * step
    else (if q % 2 = 0 then q else q + 1) * step

theorem roundToDouble_small (n : Nat) (h : n < 2 ^ 53) : roundToDouble n = n := if_pos h

/-- Source parseStringValue: guard for fewer than two bytes, then skip the
field tag, read the varint length and slice that many bytes; the slice
clamps at the buffer end as Buffer.toString does. -/
def parseStringValue (buf : List Nat) : List Nat :=
  if buf.length < 2 then []
  else
    let r := decodeVarint buf 1
    (buf.drop (1 + r.2)).take r.1

/-- Source parseDoubleValue: guard for fewer than nine bytes returns the
number 0, otherwise the eight little-endian bytes after the field tag. -/
def parseDoubleValue (buf : List Nat) : JSValue :=
  if buf.length < 9 then .intNum 0 else .doubleNum ((buf.drop 1).take 8)

/-- Source parseFloatValue: guard for fewer than five bytes returns the
number 0, otherwise the four float bytes after the field tag. -/
def parseFloatValue (buf : List Nat) : JSValue :=
  if buf.length < 5 then .intNum 0 else .floatNum ((buf.drop 1).take 4)

/-- Source parseVarintValue: guard for fewer than two bytes returns 0,
otherwise the varint after the field tag, converted by Number (rounding to
the nearest double above 2^53). -/
def parseVarintValue (buf : List Nat) : Int :=
  if buf.length < 2 then 0 else ((roundToDouble (decodeVarint buf 1).1 : Nat) : Int)

/-- Source parseVarint32Value, identical shape to parseVarintValue. -/
def parseVarint32Value (buf : List Nat) : Int :=
  if buf.length < 2 then 0 else ((roundToDouble (decodeVarint buf 1).1 : Nat) : Int)

/-- Source parseBoolValue: guard for fewer than two bytes returns false,
otherwise whether the byte after the field tag is nonzero. -/
def parseBoolValue (buf : List Nat) : Bool :=
  if buf.length < 2 then false else buf.getD 1 0 != 0

/-- Source parseTimestampValue: read the seconds varint after the field tag;
if the byte at the following offset is the field-2 tag 0x10, read the nanos
varint after it; construct the Date at
Number(seconds) * 1000 + floor(Number(nanos) / 1e6) epoch milliseconds,
an Invalid Date when that exceeds the ECMAScript range of 8.64e15.  The two
Number conversions are rounded by roundToDouble; the remaining float
multiplication, division and addition are modelled exactly — they are exact
whenever the result is within 2^53, which covers every valid Date, and an
out-of-range exact value is out of range after rounding as well, so the
validity decision agrees with the source on every input. -/
def parseTimestampValue (buf : List Nat) : JSValue :=
  let r := decodeVarint buf 1
  let offset := 1 + r.2
  let nanos : Nat := if buf[offset]? = some 0x10 then (decodeVarint buf (offset + 1)).1 else 0
  let ms : Int := ((roundToDouble r.1 * 1000 + roundToDouble nanos / 1000000 : Nat) : Int)
  if ms.natAbs ≤ 8640000000000000 then .date ms else .invalidDate

/-- Source parseBytesValue: like parseStringValue without the text decode. -/
def parseBytesValue (buf : List Nat) : List Nat :=
  if buf.length < 2 then []
  else
    let r := decodeVarint buf 1
    (buf.drop (1 + r.2)).take r.1

/-- Source fromAny: an absent or empty type url decodes to null; otherwise
dispatch on the url string, failing with UnsupportedType for any url outside
the supported set. -/
def fromAny (a : AnyValue) : Except String JSValue :=
  if a.type_url = "" then .ok .null
  else if a.type_url = typeUrlBase ++ "Empty" then .ok .null
  else if a.type_url = typeUrlBase ++ "StringValue" then .ok (.str (parseStringValue a.value))
  else if a.type_url = typeUrlBase ++ "DoubleValue" then .ok (parseDoubleValue a.value)
  else if a.type_url = typeUrlBase ++ "FloatValue" then .ok (parseFloatValue a.value)
  else if a.type_url = typeUrlBase ++ "Int64Value" ∨ a.type_url = typeUrlBase ++ "UInt64Value" then
    .ok (.intNum (parseVarintValue a.value))
  else if a.type_url = typeUrlBase ++ "Int32Value" ∨ a.type_url = typeUrlBase ++ "UInt32Value" then
    .ok (.intNum (parseVarint32Value a.value))
  else if a.type_url = typeUrlBase ++ "BoolValue" then .ok (.bool (parseBoolValue a.value))
  else if a.type_url = typeUrlBase ++ "Timestamp" then .ok (parseTimestampValue a.value)
  else if a.type_url = typeUrlBase ++ "BytesValue" then .ok (.bytes (parseBytesValue a.value))
  else .error ("Unsupported type: " ++ a.type_url)

/-! ## Varint lemmas -/

theorem natVarintAux_length_pos (fuel v : Nat) : 0 < (natVarintAux fuel v).length := by
  cases fuel with
  | zero => simp [natVarintAux]
  | succ f =>
    simp only [natVarintAux]
    split <;> simp

theorem decodeVarintAux_natVarintAux (fuel : Nat) :
    ∀ v, v ≤ fuel → ∀ (rest : List Nat) (shift acc : Nat),
      decodeVarintAux (natVarintAux fuel v ++ rest) shift acc =
        (acc + v * 2 ^ shift, (natVarintAux fuel v).length) := by
  induction fuel with
  | zero =>
    intro v hv rest shift acc
    have : v = 0 := by omega
    subst this
    simp [natVarintAux, decodeVarintAux]
  | succ fuel ih =>
    intro v hv rest shift acc
    by_cases h : v < 128
    · simp [natVarintAux, h, decodeVarintAux, Nat.mod_eq_of_lt h]
    · have hdiv : v / 128 ≤ fuel := by
        have : v / 128 < v := Nat.div_lt_self (by omega) (by omega)
        omega
      simp only [natVarintAux, if_neg h, List.cons_append, decodeVarintAux]
      have hb : ¬ (v % 128 + 128 < 128) := by omega
      simp only [if_neg hb, ih (v / 128) hdiv rest (shift + 7), List.length_cons,
        Prod.mk.injEq, and_true]
      have hmod : (v % 128 + 128) % 128 = v % 128 := by omega
      have hsplit : v % 128 + v / 128 * 128 = v := by omega
      rw [hmod]
      calc acc + v % 128 * 2 ^ shift + v / 128 * 2 ^ (shift + 7)
          = acc + (v % 128 + v / 128 * 128) * 2 ^ shift := by rw [pow_add]; ring
        _ = acc + v * 2 ^ shift := by rw [hsplit]

theorem decodeVarint_natVarint (v : Nat) (rest : List Nat) :
    decodeVarint (natVarint v ++ rest) 0 = (v, (natVarint v).length) := by
  have := decodeVarintAux_natVarintAux v v (Nat.le_refl v) rest 0 0
  simpa [decodeVarint, natVarint] using this

theorem natVarintAux_length_le (fuel : Nat) :
    ∀ v k, v ≤ fuel → 1 ≤ k → v < 2 ^ (7 * k) → (natVarintAux fuel v).length ≤ k := by
  induction fuel with
  | zero =>
    intro v k hv hk _
    have : v = 0 := by omega
    subst this
    simpa [natVarintAux] using hk
  | succ fuel ih =>
    intro v k hv hk hvk
    by_cases h : v < 128
    · simp only [natVarintAux, if_pos h, List.length_singleton]
      omega
    · simp only [natVarintAux, if_neg h, List.length_cons]
      have h2 : 2 ≤ k := by
        rcases Nat.lt_or_ge k 2 with hk2 | hk2
        · exfalso
          have hk1 : k = 1 := by omega
          subst hk1
          norm_num at hvk
          omega
        · exact hk2
      have hpow : 2 ^ (7 * k) = 2 ^ (7 * (k - 1)) * 128 := by
        have : (2 : Nat) ^ 7 = 128 := by norm_num
        rw [← this, ← pow_add]
        congr 1
        omega
      have hlt : v / 128 < 2 ^ (7 * (k - 1)) := by
        rw [Nat.div_lt_iff_lt_mul (by omega)]
        omega
      have hle : v / 128 ≤ fuel := by
        have : v / 128 < v := Nat.div_lt_self (by omega) (by omega)
        omega
      have := ih (v / 128) (k - 1) hle (by omega) hlt
      omega

theorem natVarint_length_le (v k : Nat) (hk : 1 ≤ k) (hv : v < 2 ^ (7 * k)) :
    (natVarint v).length ≤ k :=
  natVarintAux_length_le v v k (Nat.le_refl v) hk hv

theorem natVarint32Aux_eq (fuel : Nat) :
    ∀ v, v < 2 ^ 32 → natVarint32Aux fuel v = natVarintAux fuel v := by
  induction fuel with
  | zero => intro v _; rfl
  | succ fuel ih =>
    intro v hv
    by_cases h : v < 128
    · simp [natVarint32Aux, natVarintAux, h]
    · simp only [natVarint32Aux, natVarintAux, if_neg h]
      rw [Nat.mod_eq_of_lt hv, ih _ (by
        have : v / 128 ≤ v := Nat.div_le_self v 128
        omega)]

theorem encodeVarint_eq_natVarint (v : Nat) (hv : v < 2 ^ 32) :
    encodeVarint v = natVarint v :=
  natVarint32Aux_eq v v hv

/-- C6: the variable-length integer encoder and decoder round-trip at 0,
127, 128, 2^63-1, and at the representative negative 64-bit values -1 and
-2^63, which are encoded by reinterpreting their twos-complement bit
pattern as unsigned; decoding returns exactly that unsigned value. -/
theorem varint_roundtrip_values :
    (decodeVarint (writeVarint64bytes 0) 0).1 = 0 ∧
    (decodeVarint (writeVarint64bytes 127) 0).1 = 127 ∧
    (decodeVarint (writeVarint64bytes 128) 0).1 = 128 ∧
    (decodeVarint (writeVarint64bytes (2 ^ 63 - 1)) 0).1 = 2 ^ 63 - 1 ∧
    (decodeVarint (writeVarint64bytes (-1)) 0).1 = 2 ^ 64 - 1 ∧
    (decodeVarint (writeVarint64bytes (-(2 ^ 63))) 0).1 = 2 ^ 63 ∧
    ((-1 : Int) % 2 ^ 64).toNat = 2 ^ 64 - 1 ∧
    ((-(2 ^ 63) : Int) % 2 ^ 64).toNat = 2 ^ 63 := by
  decide

/-! ## Codec roundtrip lemmas -/

theorem bind_ok {α β γ : Type} (a : α) (f : α → Except γ β) :
    (Except.ok a : Except γ α).bind f = f a := rfl

theorem fromAny_stringValue (buf : List Nat) :
    fromAny ⟨typeUrlBase ++ "StringValue", buf⟩ = .ok (.str (parseStringValue buf)) := rfl

theorem fromAny_doubleValue (buf : List Nat) :
    fromAny ⟨typeUrlBase ++ "DoubleValue", buf⟩ = .ok (parseDoubleValue buf) := rfl

theorem fromAny_int64Value (buf : List Nat) :
    fromAny ⟨typeUrlBase ++ "Int64Value", buf⟩ = .ok (.intNum (parseVarintValue buf)) := rfl

theorem fromAny_boolValue (buf : List Nat) :
    fromAny ⟨typeUrlBase ++ "BoolValue", buf⟩ = .ok (.bool (parseBoolValue buf)) := rfl

theorem fromAny_timestamp (buf : List Nat) :
    fromAny ⟨typeUrlBase ++ "Timestamp", buf⟩ = .ok (parseTimestampValue buf) := rfl

theorem fromAny_bytesValue (buf : List Nat) :
    fromAny ⟨typeUrlBase ++ "BytesValue", buf⟩ = .ok (.bytes (parseBytesValue buf)) := rfl

/-- Parsing a length-prefixed field written by the encoder recovers the
payload, for payloads whose length survives the 32-bit length shift. -/
theorem parseStringValue_encode (s : List Nat) (h : s.length < 2 ^ 32) :
    parseStringValue (0x0a :: (encodeVarint s.length ++ s)) = s := by
  have henc := encodeVarint_eq_natVarint s.length h
  have hpos := natVarintAux_length_pos s.length s.length
  have hlenpos : 0 < (natVarint s.length).length := hpos
  have hguard : ¬ ((0x0a :: (natVarint s.length ++ s)).length < 2) := by
    simp only [List.length_cons, List.length_append]
    omega
  have hdec : decodeVarint (0x0a :: (natVarint s.length ++ s)) 1 =
      (s.length, (natVarint s.length).length) := by
    have := decodeVarint_natVarint s.length s
    simpa [decodeVarint] using this
  simp only [parseStringValue, henc, if_neg hguard, hdec]
  rw [Nat.add_comm 1 (natVarint s.length).length, List.drop_succ_cons, List.drop_left,
    List.take_length]

theorem parseBytesValue_eq_parseStringValue (buf : List Nat) :
    parseBytesValue buf = parseStringValue buf := rfl

/-- Roundtrip for the string envelope. -/
theorem str_roundtrip (s : List Nat) (h : s.length < 2 ^ 32) :
    (toAny (.str s)).bind fromAny = .ok (.str s) := by
  simp only [toAny, bind_ok, fromAny_stringValue, parseStringValue_encode s h]

/-- Roundtrip for the bytes envelope. -/
theorem bytes_roundtrip (bs : List Nat) (h : bs.length < 2 ^ 32) :
    (toAny (.bytes bs)).bind fromAny = .ok (.bytes bs) := by
  simp only [toAny, bind_ok, fromAny_bytesValue, parseBytesValue_eq_parseStringValue,
    parseStringValue_encode bs h]

/-- Roundtrip for the double envelope: the eight-byte bit pattern is
reproduced exactly. -/
theorem double_roundtrip (bits : List Nat) (h : bits.length = 8) :
    (toAny (.doubleNum bits)).bind fromAny = .ok (.doubleNum bits) := by
  have htake : (bits ++ List.replicate 8 0).take 8 = bits := by
    rw [← h, List.take_left]
  simp only [toAny, htake, bind_ok, fromAny_doubleValue, parseDoubleValue]
  have hlen : ¬ ((0x09 :: bits).length < 9) := by
    simp [h]
  rw [if_neg hlen]
  simp [List.take_of_length_le, h]

/-- Roundtrip for the bool envelope. -/
theorem bool_roundtrip (b : Bool) : (toAny (.bool b)).bind fromAny = .ok (.bool b) := by
  cases b <;> decide

theorem writeVarint64bytes_ofNat (n : Nat) : writeVarint64bytes (n : Int) = natVarint n := by
  rw [writeVarint64bytes, if_neg (by omega)]
  have h : ((n : Int)).toNat = n := by omega
  rw [h]

theorem writeVarint32bytes_ofNat (n : Nat) (h : n < 2 ^ 32) :
    writeVarint32bytes (n : Int) = natVarint n := by
  rw [writeVarint32bytes, if_pos (by omega)]
  have ht : ((n : Int)).toNat = n := by omega
  rw [ht, encodeVarint_eq_natVarint n h]

/-- Roundtrip for integral numbers in the exactly-representable nonnegative
range: the 9-byte allocation holds the whole varint below 2^56 and the
decoded value is recovered exactly. -/
theorem intNum_roundtrip (n : Int) (h0 : 0 ≤ n) (h53 : n < 2 ^ 53) :
    (toAny (.intNum n)).bind fromAny = .ok (.intNum n) := by
  have hwv : writeVarint64bytes n = natVarint n.toNat := by
    have h := writeVarint64bytes_ofNat n.toNat
    rwa [Int.toNat_of_nonneg h0] at h
  have hlen : (natVarint n.toNat).length ≤ 8 := by
    apply natVarint_length_le _ 8 (by norm_num)
    have h53n : n < 9007199254740992 := by
      have h2 : ((2 : Int) ^ 53) = 9007199254740992 := by norm_num
      omega
    have h56 : (2 : Nat) ^ (7 * 8) = 72057594037927936 := by norm_num
    omega
  have hpos : 0 < (natVarint n.toNat).length := natVarintAux_length_pos n.toNat n.toNat
  have htake : (0x08 :: natVarint n.toNat).take 9 = 0x08 :: natVarint n.toNat := by
    apply List.take_of_length_le
    simp only [List.length_cons]
    omega
  have hguard : ¬ ((0x08 :: natVarint n.toNat).length < 2) := by
    simp only [List.length_cons]
    omega
  have hdec : decodeVarint (0x08 :: natVarint n.toNat) 1 =
      (n.toNat, (natVarint n.toNat).length) := by
    have := decodeVarint_natVarint n.toNat []
    simpa [decodeVarint] using this
  have hrd : roundToDouble n.toNat = n.toNat := roundToDouble_small _ (by
    have h2 : ((2 : Int) ^ 53) = 9007199254740992 := by norm_num
    have h3 : (2 : Nat) ^ 53 = 9007199254740992 := by norm_num
    omega)
  simp only [toAny, hwv, htake, bind_ok, fromAny_int64Value, parseVarintValue, if_neg hguard,
    hdec, hrd]
  rw [Int.toNat_of_nonneg h0]

/-- Roundtrip for valid timestamps at nonnegative epoch milliseconds:
seconds and the millisecond remainder are recovered exactly and the result
stays inside the Date range. -/
theorem date_roundtrip (ms : Int) (h0 : 0 ≤ ms) (hrange : ms ≤ 8640000000000000) :
    (toAny (.date ms)).bind fromAny = .ok (.date ms) := by
  have hms : ((ms.toNat : Nat) : Int) = ms := Int.toNat_of_nonneg h0
  set msn := ms.toNat with hmsn
  have hmsb : msn ≤ 8640000000000000 := by omega
  have hsec : Int.fdiv ms 1000 = ((msn / 1000 : Nat) : Int) := by
    rw [← hms, Int.fdiv_eq_tdiv (by omega) (by norm_num)]
    simpa using (Int.ofNat_tdiv msn 1000).symm
  have hnan : Int.tmod ms 1000 * 1000000 = ((msn % 1000 * 1000000 : Nat) : Int) := by
    have h1 : Int.tmod ms 1000 = ((msn % 1000 : Nat) : Int) := by
      rw [← hms]
      simpa using (Int.ofNat_tmod msn 1000).symm
    rw [h1]
    push_cast
    ring
  have hsecw : writeVarint64bytes (Int.fdiv ms 1000) = natVarint (msn / 1000) := by
    rw [hsec, writeVarint64bytes_ofNat]
  have hbound : msn % 1000 * 1000000 < 2 ^ 32 := by
    have h1 : msn % 1000 < 1000 := Nat.mod_lt _ (by norm_num)
    have h2 : (2 : Nat) ^ 32 = 4294967296 := by norm_num
    omega
  have hnanw : writeVarint32bytes (Int.tmod ms 1000 * 1000000) =
      natVarint (msn % 1000 * 1000000) := by
    rw [hnan, writeVarint32bytes_ofNat _ hbound]
  have hsecl : (natVarint (msn / 1000)).length ≤ 8 := by
    apply natVarint_length_le _ 8 (by norm_num)
    have h1 : msn / 1000 ≤ msn := Nat.div_le_self _ _
    have h56 : (2 : Nat) ^ (7 * 8) = 72057594037927936 := by norm_num
    omega
  have hnanl : (natVarint (msn % 1000 * 1000000)).length ≤ 5 := by
    apply natVarint_length_le _ 5 (by norm_num)
    have h35 : (2 : Nat) ^ (7 * 5) = 34359738368 := by norm_num
    have h32 : (2 : Nat) ^ 32 = 4294967296 := by norm_num
    omega
  set A := natVarint (msn / 1000) with hA
  set B := natVarint (msn % 1000 * 1000000) with hB
  have htake : (0x08 :: (A ++ 0x10 :: B)).take 20 = 0x08 :: (A ++ 0x10 :: B) := by
    apply List.take_of_length_le
    simp only [List.length_append, List.length_cons]
    omega
  have hdecA : decodeVarint (0x08 :: (A ++ 0x10 :: B)) 1 = (msn / 1000, A.length) := by
    have := decodeVarint_natVarint (msn / 1000) (0x10 :: B)
    simpa [decodeVarint, hA] using this
  have hat : (0x08 :: (A ++ 0x10 :: B))[1 + A.length]? = some 0x10 := by
    rw [show 1 + A.length = A.length + 1 by omega, List.getElem?_cons_succ,
      List.getElem?_append_right (Nat.le_refl _)]
    simp
  have hdecB : decodeVarint (0x08 :: (A ++ 0x10 :: B)) (1 + A.length + 1) =
      (msn % 1000 * 1000000, B.length) := by
    have hdrop : (0x08 :: (A ++ 0x10 :: B)).drop (1 + A.length + 1) = B := by
      rw [show 1 + A.length + 1 = (A.length + 1) + 1 by omega, List.drop_succ_cons]
      have h1 := @List.drop_append Nat A (0x10 :: B) 1
      rw [h1, List.drop_succ_cons, List.drop_zero]
    have h2 := decodeVarint_natVarint (msn % 1000 * 1000000) []
    rw [decodeVarint, hdrop, hB]
    simp only [decodeVarint, List.drop_zero, List.append_nil] at h2
    exact h2
  have hstep : (toAny (.date ms)).bind fromAny =
      fromAny ⟨typeUrlBase ++ "Timestamp", 0x08 :: (A ++ 0x10 :: B)⟩ := by
    simp only [toAny, hsecw, hnanw, ← hA, ← hB, bind_ok, List.cons_append]
    rw [htake]
  rw [hstep, fromAny_timestamp]
  simp only [parseTimestampValue, hdecA]
  rw [hat]
  simp only [if_pos, hdecB]
  have h53 : (2 : Nat) ^ 53 = 9007199254740992 := by norm_num
  have hr1 : roundToDouble (msn / 1000) = msn / 1000 := roundToDouble_small _ (by
    have h1 : msn / 1000 ≤ msn := Nat.div_le_self _ _
    omega)
  have hr2 : roundToDouble (msn % 1000 * 1000000) = msn % 1000 * 1000000 :=
    roundToDouble_small _ (by
      have h1 : msn % 1000 < 1000 := Nat.mod_lt _ (by norm_num)
      omega)
  have hval : (msn % 1000 * 1000000) / 1000000 = msn % 1000 :=
    Nat.mul_div_cancel _ (by norm_num)
  rw [hr1, hr2, hval]
  have hfinN : msn / 1000 * 1000 + msn % 1000 = msn := by omega
  rw [hfinN, hms]
  rw [if_pos (by omega)]

/-- C5 counterexample: decoding the encoding of the negative integral number
-1 does not reproduce it.  On the number path the varint of the unsigned
reinterpretation needs ten bytes but the 9-byte allocation truncates it to
the 56-bit value 2^56 - 1, which the Number conversion then rounds up to
2^56; the timestamp at epoch millisecond -1 decodes to an Invalid Date,
since its unsigned-reinterpreted seconds fall far outside the Date range. -/
theorem claim_C5_cex :
    (toAny (JSValue.intNum (-1))).bind fromAny ≠ .ok (JSValue.intNum (-1)) ∧
    (toAny (JSValue.intNum (-1))).bind fromAny = .ok (JSValue.intNum (2 ^ 56)) ∧
    (toAny (JSValue.date (-1))).bind fromAny ≠ .ok (JSValue.date (-1)) ∧
    (toAny (JSValue.date (-1))).bind fromAny = .ok JSValue.invalidDate := by
  decide

/-- C5 (amended): decode after encode is the identity for strings, byte
sequences (each of byte length below 2^32), doubles (bit-exact on the
8-byte pattern), booleans, nonnegative integral numbers below 2^53, and
valid timestamps at nonnegative epoch milliseconds, which round-trip at
exact millisecond precision; negative 64-bit integers and negative
timestamps are excluded: a negative integer decodes to the Number rounding
of its unsigned reinterpretation (truncated to 56 bits on the number path)
and a negative timestamp decodes to an Invalid Date. -/
theorem claim_C5 (s bs bits : List Nat) (b : Bool) (n ms : Int)
    (hs : s.length < 2 ^ 32) (hbs : bs.length < 2 ^ 32) (hbits : bits.length = 8)
    (hn0 : 0 ≤ n) (hn : n < 2 ^ 53) (hms0 : 0 ≤ ms) (hms : ms ≤ 8640000000000000) :
    (toAny (.str s)).bind fromAny = .ok (.str s) ∧
    (toAny (.bytes bs)).bind fromAny = .ok (.bytes bs) ∧
    (toAny (.doubleNum bits)).bind fromAny = .ok (.doubleNum bits) ∧
    (toAny (.bool b)).bind fromAny = .ok (.bool b) ∧
    (toAny (.intNum n)).bind fromAny = .ok (.intNum n) ∧
    (toAny (.date ms)).bind fromAny = .ok (.date ms) :=
  ⟨str_roundtrip s hs, bytes_roundtrip bs hbs, double_roundtrip bits hbits,
   bool_roundtrip b, intNum_roundtrip n hn0 hn, date_roundtrip ms hms0 hms⟩

/-- C5 witness: the amended roundtrip at concrete values. -/
theorem claim_C5_witness :
    (([104, 105] : List Nat).length < 2 ^ 32 ∧ ([7] : List Nat).length < 2 ^ 32 ∧
     ([1, 2, 3, 4, 5, 6, 7, 240] : List Nat).length = 8 ∧
     (0 : Int) ≤ 42 ∧ (42 : Int) < 2 ^ 53 ∧ (0 : Int) ≤ 1234567 ∧
     (1234567 : Int) ≤ 8640000000000000) ∧
    ((toAny (.str [104, 105])).bind fromAny = .ok (.str [104, 105]) ∧
     (toAny (.bytes [7])).bind fromAny = .ok (.bytes [7]) ∧
     (toAny (.doubleNum [1, 2, 3, 4, 5, 6, 7, 240])).bind fromAny =
       .ok (.doubleNum [1, 2, 3, 4, 5, 6, 7, 240]) ∧
     (toAny (.bool true)).bind fromAny = .ok (.bool true) ∧
     (toAny (.intNum 42)).bind fromAny = .ok (.intNum 42) ∧
     (toAny (.date 1234567)).bind fromAny = .ok (.date 1234567)) :=
  ⟨by decide,
   claim_C5 [104, 105] [7] [1, 2, 3, 4, 5, 6, 7, 240] true 42 1234567
     (by decide) (by decide) (by decide) (by decide) (by decide) (by decide) (by decide)⟩

/-! ## Defaulting on empty or undersized payloads, and unsupported tags -/

/-- Tags in the supported decode set, in source dispatch order. -/
def supportedTags : List String :=
  ["Empty", "StringValue", "DoubleValue", "FloatValue", "Int64Value", "UInt64Value",
   "Int32Value", "UInt32Value", "BoolValue", "Timestamp", "BytesValue"]

/-- Zero value each supported tag decodes to on an empty payload. -/
def zeroValue : String → JSValue
  | "Empty" => .null
  | "StringValue" => .str []
  | "BoolValue" => .bool false
  | "Timestamp" => .date 0
  | "BytesValue" => .bytes []
  | _ => .intNum 0

/-- Minimal well-formed payload size per tag: the numeric fixed-width tags
need a field tag plus their width, every other tag needs a field tag plus at
least one byte; the Empty tag carries no payload at all. -/
def minPayload : String → Nat
  | "DoubleValue" => 9
  | "FloatValue" => 5
  | "Empty" => 1
  | _ => 2

theorem fromAny_empty (buf : List Nat) :
    fromAny ⟨typeUrlBase ++ "Empty", buf⟩ = .ok .null := rfl

theorem fromAny_floatValue (buf : List Nat) :
    fromAny ⟨typeUrlBase ++ "FloatValue", buf⟩ = .ok (parseFloatValue buf) := rfl

theorem fromAny_uint64Value (buf : List Nat) :
    fromAny ⟨typeUrlBase ++ "UInt64Value", buf⟩ = .ok (.intNum (parseVarintValue buf)) := rfl

theorem fromAny_int32Value (buf : List Nat) :
    fromAny ⟨typeUrlBase ++ "Int32Value", buf⟩ = .ok (.intNum (parseVarint32Value buf)) := rfl

theorem fromAny_uint32Value (buf : List Nat) :
    fromAny ⟨typeUrlBase ++ "UInt32Value", buf⟩ = .ok (.intNum (parseVarint32Value buf)) := rfl

theorem parseTimestampValue_short (buf : List Nat) (h : buf.length < 2) :
    parseTimestampValue buf = .date 0 := by
  match buf, h with
  | [], _ => rfl
  | [b], _ => simp [parseTimestampValue, decodeVarint, decodeVarintAux, roundToDouble]

/-- C7: for every supported decode tag, an empty or undersized payload does
not raise and decodes to the zero value of the type: empty string, the number 0,
false, the zero timestamp, or empty bytes. -/
theorem claim_C7 (tag : String) (buf : List Nat) (htag : tag ∈ supportedTags)
    (hlen : buf.length < minPayload tag) :
    fromAny ⟨typeUrlBase ++ tag, buf⟩ = .ok (zeroValue tag) := by
  simp only [supportedTags, List.mem_cons, List.not_mem_nil, or_false] at htag
  rcases htag with h | h | h | h | h | h | h | h | h | h | h <;> subst h
  · exact fromAny_empty buf
  · have hl : buf.length < 2 := hlen
    rw [fromAny_stringValue, parseStringValue, if_pos hl]
    rfl
  · have hl : buf.length < 9 := hlen
    rw [fromAny_doubleValue, parseDoubleValue, if_pos hl]
    rfl
  · have hl : buf.length < 5 := hlen
    rw [fromAny_floatValue, parseFloatValue, if_pos hl]
    rfl
  · have hl : buf.length < 2 := hlen
    rw [fromAny_int64Value, parseVarintValue, if_pos hl]
    rfl
  · have hl : buf.length < 2 := hlen
    rw [fromAny_uint64Value, parseVarintValue, if_pos hl]
    rfl
  · have hl : buf.length < 2 := hlen
    rw [fromAny_int32Value, parseVarint32Value, if_pos hl]
    rfl
  · have hl : buf.length < 2 := hlen
    rw [fromAny_uint32Value, parseVarint32Value, if_pos hl]
    rfl
  · have hl : buf.length < 2 := hlen
    rw [fromAny_boolValue, parseBoolValue, if_pos hl]
    rfl
  · have hl : buf.length < 2 := hlen
    rw [fromAny_timestamp, parseTimestampValue_short buf hl]
    rfl
  · have hl : buf.length < 2 := hlen
    rw [fromAny_bytesValue, parseBytesValue, if_pos hl]
    rfl

/-- C7 witness: the BoolValue tag with an empty payload decodes to false,
and the Timestamp tag with a one-byte payload decodes to the zero date. -/
theorem claim_C7_witness :
    ("BoolValue" ∈ supportedTags ∧ ([] : List Nat).length < minPayload ("BoolValue") ∧
      fromAny ⟨typeUrlBase ++ "BoolValue", []⟩ = .ok (zeroValue ("BoolValue"))) ∧
    ("Timestamp" ∈ supportedTags ∧ ([0x08] : List Nat).length < minPayload ("Timestamp") ∧
      fromAny ⟨typeUrlBase ++ "Timestamp", [0x08]⟩ = .ok (zeroValue ("Timestamp"))) :=
  ⟨⟨by decide, by decide, claim_C7 ("BoolValue") [] (by decide) (by decide)⟩,
   ⟨by decide, by decide, claim_C7 ("Timestamp") [0x08] (by decide) (by decide)⟩⟩

/-- Full type urls of the supported decode set. -/
def supportedTypeUrls : List String := supportedTags.map (fun t => typeUrlBase ++ t)

/-- C8 counterexample: an envelope with an empty tag does not fail with
UnsupportedType; it decodes to null. -/
theorem claim_C8_cex :
    fromAny ⟨"", []⟩ = .ok .null ∧
    fromAny ⟨"", []⟩ ≠ .error ("Unsupported type: " ++ "") := by
  decide

/-- C8 (amended): every envelope whose tag is nonempty and outside the
supported decode set fails with an UnsupportedType error naming the tag; an
absent or empty tag instead decodes to null. -/
theorem claim_C8 (url : String) (buf : List Nat) (hne : url ≠ "")
    (hmem : url ∉ supportedTypeUrls) :
    fromAny ⟨url, buf⟩ = .error ("Unsupported type: " ++ url) := by
  simp only [supportedTypeUrls, supportedTags, List.map_cons, List.map_nil, List.mem_cons,
    List.not_mem_nil, or_false, not_or] at hmem
  obtain ⟨h1, h2, h3, h4, h5, h6, h7, h8, h9, h10, h11⟩ := hmem
  rw [fromAny]
  rw [if_neg hne, if_neg h1, if_neg h2, if_neg h3, if_neg h4,
    if_neg (by exact fun hc => hc.elim h5 h6), if_neg (by exact fun hc => hc.elim h7 h8),
    if_neg h9, if_neg h10, if_neg h11]

/-- C8 witness: a concrete unsupported nonempty tag fails, naming the tag. -/
theorem claim_C8_witness :
    (("Foo" : String) ≠ "" ∧ ("Foo" : String) ∉ supportedTypeUrls) ∧
    fromAny ⟨"Foo", [1, 2]⟩ = .error ("Unsupported type: " ++ "Foo") :=
  ⟨⟨by decide, by decide⟩, claim_C8 ("Foo") [1, 2] (by decide) (by decide)⟩

/-! ## Request multiplexer (HAClient module)

Node runs the stream callbacks and the send bodies one at a time, so the
multiplexer is modelled as a sequential transition system over the handler
bodies of initQueryStream and the promise-executor body of send. -/

/-- Settlement kinds of a pending call promise. -/
inductive Settle where
  | resolved
  | rejected
deriving DecidableEq, Repr

/-- Multiplexer state: the tracked last-known sequence number txseq, the
shared responsePromise slot holding the id of the call it would settle, the
call ids written onto the stream in order, and the settlements recorded in
order. -/
structure MuxState where
  txseq : Nat
  awaiting : Option Nat
  writes : List Nat
  settled : List (Nat × Settle)
deriving DecidableEq, Repr

/-- Events at the multiplexer: a send call reaching its promise executor,
an inbound data event carrying a response sequence number, and a stream
error event. -/
inductive MuxEvent where
  | send (id : Nat)
  | data (txseq : Nat)
  | error
deriving DecidableEq, Repr

/-- One event step, mirroring the source handler bodies: the send path
installs itself in the responsePromise slot unconditionally (overwriting any
pending call) and writes the request immediately; the data handler first
updates txseq whenever the response value is positive, then resolves and
clears the slot if occupied; the error handler rejects and clears the slot
if occupied. -/
def muxStep (s : MuxState) : MuxEvent → MuxState
  | .send id => { s with awaiting := some id, writes := s.writes ++ [id] }
  | .data t =>
    let s1 := if 0 < t then { s with txseq := t } else s
    match s1.awaiting with
    | some i => { s1 with settled := s1.settled ++ [(i, .resolved)], awaiting := none }
    | none => s1
  | .error =>
    match s.awaiting with
    | some i => { s with settled := s.settled ++ [(i, .rejected)], awaiting := none }
    | none => s

/-- Processing a sequence of events. -/
def muxRun (s : MuxState) (es : List MuxEvent) : MuxState := es.foldl muxStep s

theorem muxRun_cons (s : MuxState) (e : MuxEvent) (es : List MuxEvent) :
    muxRun s (e :: es) = muxRun (muxStep s e) es := rfl

theorem muxStep_data_txseq (s : MuxState) (t : Nat) :
    (muxStep s (.data t)).txseq = if 0 < t then t else s.txseq := by
  by_cases h : 0 < t <;> rcases hA : s.awaiting with _ | i <;> simp [muxStep, h, hA]

/-- Glue: the getD getLast? of a cons shifts the default. -/
theorem getLast?_getD_cons {α : Type} (x : α) (t : List α) (d : α) :
    ((x :: t).getLast?).getD d = (t.getLast?).getD x := by
  cases t with
  | nil => rfl
  | cons y ys =>
    rw [List.getLast?_cons_cons]
    obtain ⟨z, hz⟩ := Option.isSome_iff_exists.mp
      (by rw [List.getLast?_isSome]; exact List.cons_ne_nil y ys)
    rw [hz]
    rfl

/-- Glue: folding an overwrite-when-p update yields the last element of the
filtered list, or the initial value when none satisfies p. -/
theorem foldl_overwrite {α : Type} (p : α → Prop) [DecidablePred p] :
    ∀ (l : List α) (d : α),
      l.foldl (fun a r => if p r then r else a) d =
        ((l.filter (fun r => decide (p r))).getLast?).getD d := by
  intro l
  induction l with
  | nil => intro d; rfl
  | cons x xs ih =>
    intro d
    rw [List.foldl_cons, List.filter_cons]
    by_cases hp : p x
    · rw [if_pos hp, if_pos (show decide (p x) = true by simpa using hp),
        getLast?_getD_cons, ih x]
    · rw [if_neg hp, if_neg (show ¬ decide (p x) = true by simpa using hp), ih d]

theorem muxRun_data_txseq (s : MuxState) (ts : List Nat) :
    (muxRun s (ts.map .data)).txseq =
      ts.foldl (fun a t => if 0 < t then t else a) s.txseq := by
  induction ts generalizing s with
  | nil => rfl
  | cons t ts ih =>
    rw [List.map_cons, muxRun_cons, ih, List.foldl_cons, muxStep_data_txseq]

/-- C2 counterexample: from a state tracking sequence 5, a response carrying
the nonzero sequence 3 lowers the tracked value to 3. -/
theorem claim_C2_cex :
    (muxRun ⟨5, none, [], []⟩ [.data 3]).txseq = 3 ∧ 3 < 5 := by
  decide

/-- C2 (amended): the data handler overwrites the tracked sequence with any
positive response value — including smaller ones — and ignores zero values;
over any sequence of inbound responses the final tracked value is the last
positive sequence carried, or the initial value when none was positive.
Monotonicity therefore holds only when the inbound positive values
themselves never decrease. -/
theorem claim_C2 (s : MuxState) (ts : List Nat) :
    (muxRun s (ts.map .data)).txseq =
      ((ts.filter (fun t => decide (0 < t))).getLast?).getD s.txseq := by
  rw [muxRun_data_txseq, foldl_overwrite (fun t => 0 < t)]

/-- C4 counterexample: a second send issued while the first is pending
writes its request onto the stream immediately — the stream then holds both
requests while the first call is still unsettled — contradicting the claim
that the second write waits for the first settlement. -/
theorem claim_C4_cex :
    (muxRun ⟨0, none, [], []⟩ [.send 1, .send 2]).writes = [1, 2] ∧
    (muxRun ⟨0, none, [], []⟩ [.send 1, .send 2]).settled = [] := by
  decide

/-- C4 (amended): the multiplexer does not queue concurrent senders: a
second send issued while a first is pending writes its request immediately
and replaces the first call in the shared awaiting slot; the next inbound
response then settles only the second call, and the displaced first call is
never settled by stream traffic. -/
theorem claim_C4 (s : MuxState) (i j t : Nat) (hij : i ≠ j) :
    (muxRun s [.send i, .send j]).writes = s.writes ++ [i, j] ∧
    (muxRun s [.send i, .send j]).awaiting = some j ∧
    (muxRun s [.send i, .send j, .data t]).settled = s.settled ++ [(j, .resolved)] ∧
    ((i, Settle.resolved) ∉ s.settled →
      (i, Settle.resolved) ∉ (muxRun s [.send i, .send j, .data t]).settled) ∧
    ((i, Settle.rejected) ∉ s.settled →
      (i, Settle.rejected) ∉ (muxRun s [.send i, .send j, .data t]).settled) := by
  refine ⟨?_, ?_, ?_, ?_, ?_⟩ <;>
    by_cases h : 0 < t <;>
      simp [muxRun, muxStep, h, hij, List.append_assoc]

/-- C4 witness: the amended behaviour at a concrete trace. -/
theorem claim_C4_witness :
    (1 : Nat) ≠ 2 ∧
    ((muxRun ⟨0, none, [], []⟩ [.send 1, .send 2]).writes = [] ++ [1, 2] ∧
     (muxRun ⟨0, none, [], []⟩ [.send 1, .send 2]).awaiting = some 2 ∧
     (muxRun ⟨0, none, [], []⟩ [.send 1, .send 2, .data 7]).settled =
       [] ++ [(2, Settle.resolved)] ∧
     ((1, Settle.resolved) ∉ ([] : List (Nat × Settle)) →
       (1, Settle.resolved) ∉ (muxRun ⟨0, none, [], []⟩ [.send 1, .send 2, .data 7]).settled) ∧
     ((1, Settle.rejected) ∉ ([] : List (Nat × Settle)) →
       (1, Settle.rejected) ∉ (muxRun ⟨0, none, [], []⟩ [.send 1, .send 2, .data 7]).settled)) :=
  ⟨by decide, claim_C4 ⟨0, none, [], []⟩ 1 2 7 (by decide)⟩

/-! ## Replica registry (EmbeddedReplicasManager module) -/

/-- One registered replica: its tracked replication sequence, the log of
statements executed against its writable handle (modelling the database
mutations), and the file path its handle was opened on. -/
structure ReplicaConnection where
  txseq : Nat
  execLog : List String
  dsn : String
deriving DecidableEq, Repr

/-- Replication feed message as parsed by the source: a generic record with
optional sql and txseq fields.  The empty string models an absent or empty
sql field and zero models an absent or zero txseq field, matching the
JavaScript truthiness tests in the source. -/
structure ReplMessage where
  sql : String
  txseq : Nat
deriving DecidableEq, Repr

/-- Source applyReplicationMessage body for a registered replica: execute
the carried sql when truthy, then set the tracked sequence to the carried
value when truthy.  No comparison against the current sequence gates either
effect. -/
def applyReplicationMessage (r : ReplicaConnection) (m : ReplMessage) : ReplicaConnection :=
  let r1 := if m.sql ≠ "" then { r with execLog := r.execLog ++ [m.sql] } else r
  if m.txseq ≠ 0 then { r1 with txseq := m.txseq } else r1

/-- Applying a feed of messages in delivery order. -/
def applyReplicationMessages (r : ReplicaConnection) (ms : List ReplMessage) :
    ReplicaConnection :=
  ms.foldl applyReplicationMessage r

theorem applyReplicationMessage_txseq (r : ReplicaConnection) (m : ReplMessage) :
    (applyReplicationMessage r m).txseq = if m.txseq ≠ 0 then m.txseq else r.txseq := by
  by_cases h1 : m.sql = "" <;> by_cases h2 : m.txseq = 0 <;>
    simp [applyReplicationMessage, h1, h2]

theorem applyReplicationMessage_execLog (r : ReplicaConnection) (m : ReplMessage) :
    (applyReplicationMessage r m).execLog =
      if m.sql ≠ "" then r.execLog ++ [m.sql] else r.execLog := by
  by_cases h1 : m.sql = "" <;> by_cases h2 : m.txseq = 0 <;>
    simp [applyReplicationMessage, h1, h2]

/-- C3 counterexample: a replica brought to sequence 5 by one message and
then handed a message carrying sequence 3 ends at tracked sequence 3, below
its prior value. -/
theorem claim_C3_cex :
    (applyReplicationMessages ⟨0, [], "app.db"⟩ [⟨"", 5⟩, ⟨"", 3⟩]).txseq = 3 ∧ 3 < 5 := by
  decide

/-- C3 (amended): applying a message sets the tracked sequence to exactly
the carried value whenever that value is nonzero — regressing it when the
value is smaller — and leaves it unchanged when zero or absent; the carried
sql is executed unconditionally, with no sequence gating or idempotence
check.  Over any message list the final tracked sequence is the last
nonzero carried value, or the prior value when none is nonzero, and the
execution log grows by every truthy sql in delivery order. -/
theorem claim_C3 (r : ReplicaConnection) (ms : List ReplMessage) :
    (applyReplicationMessages r ms).txseq =
      (((ms.map (fun m => m.txseq)).filter (fun t => decide (t ≠ 0))).getLast?).getD r.txseq ∧
    (applyReplicationMessages r ms).execLog =
      r.execLog ++ (ms.filter (fun m => m.sql != "")).map (fun m => m.sql) := by
  constructor
  · have hfold : ∀ (l : List ReplMessage) (r0 : ReplicaConnection),
        (applyReplicationMessages r0 l).txseq =
          (l.map (fun m => m.txseq)).foldl (fun a t => if t ≠ 0 then t else a) r0.txseq := by
      intro l
      induction l with
      | nil => intro r0; rfl
      | cons m l ih =>
        intro r0
        rw [show applyReplicationMessages r0 (m :: l) =
            applyReplicationMessages (applyReplicationMessage r0 m) l from rfl, ih,
          List.map_cons, List.foldl_cons, applyReplicationMessage_txseq]
    rw [hfold ms r, foldl_overwrite (fun t => t ≠ 0)]
  · induction ms generalizing r with
    | nil => simp [applyReplicationMessages]
    | cons m l ih =>
      rw [show applyReplicationMessages r (m :: l) =
          applyReplicationMessages (applyReplicationMessage r m) l from rfl, ih,
        applyReplicationMessage_execLog, List.filter_cons]
      by_cases h : m.sql = "" <;> simp [h, List.append_assoc]

/-- Registry state: the Map of registered replicas keyed by file name, in
insertion order. -/
structure EmbeddedReplicasManager where
  replicas : List (String × ReplicaConnection)
deriving DecidableEq, Repr

/-- Source getReplica: when exactly one replica is registered and the
requested name is falsy (empty), return that sole replica; otherwise an
exact Map lookup. -/
def getReplica (m : EmbeddedReplicasManager) (dbName : String) : Option ReplicaConnection :=
  if m.replicas.length = 1 ∧ dbName = "" then (m.replicas.head?).map (fun p => p.2)
  else List.lookup dbName m.replicas

/-- Source createConnection: open a new read-only handle on the resolved
replica file, or none when no replica resolves.  The handle is modelled by
the file path it was opened on. -/
def createConnection (m : EmbeddedReplicasManager) (dbName : String) : Option String :=
  (getReplica m dbName).map (fun r => r.dsn)

/-- Source isReplicaUpdated: false when no replica resolves, otherwise
whether the tracked sequence is at least the required one. -/
def isReplicaUpdated (m : EmbeddedReplicasManager) (dbName : String) (txseq : Nat) : Bool :=
  match getReplica m dbName with
  | none => false
  | some r => decide (txseq ≤ r.txseq)

/-! ## Consistency router (HAConnection module) -/

/-- Source isSelectQuery: trim, uppercase, and test the four read-statement
prefixes.  Statements are modelled as character lists; trimming drops
leading and trailing whitespace characters and uppercasing maps each
character, as the JavaScript string methods do on the ASCII statements the
router compares against. -/
def isSelectQuery (sql : List Char) : Bool :=
  let trimmed := (((sql.dropWhile Char.isWhitespace).reverse.dropWhile
    Char.isWhitespace).reverse).map Char.toUpper
  "SELECT".toList.isPrefixOf trimmed || "PRAGMA".toList.isPrefixOf trimmed ||
  "EXPLAIN".toList.isPrefixOf trimmed || "WITH".toList.isPrefixOf trimmed

/-- Connection-local state the query routing reads: the open embedded
replica handle if any (modelled by its file path), the replicas manager if
replication was configured, the active catalog (the replication id on the
underlying client) and the last sequence number observed from the
authority. -/
structure HAConnectionState where
  embeddedReplica : Option String
  replicasManager : Option EmbeddedReplicasManager
  replicationID : String
  clientTxseq : Nat
deriving DecidableEq, Repr

/-- Source HAConnection.query routing condition: the statement is executed
on the local replica handle exactly when this is true, and forwarded to the
remote client otherwise. -/
def queryUsesReplica (c : HAConnectionState) (sql : List Char) : Bool :=
  match c.replicasManager with
  | none => false
  | some m =>
    c.embeddedReplica.isSome && isSelectQuery sql &&
      isReplicaUpdated m c.replicationID c.clientTxseq

/-- Source HAConnection.setCatalog modelled with explicit error passing: a
thrown error is returned alongside the unchanged state, mirroring that the
JavaScript throw happens before any field is assigned; otherwise the
replication id is updated and, when a manager is configured, the replica
handle is closed and re-resolved for the new catalog. -/
def setCatalog (c : HAConnectionState) (catalog : String) :
    Option String × HAConnectionState :=
  if catalog = "" then (some ("Catalog cannot be empty"), c)
  else
    let c1 := { c with replicationID := catalog }
    match c1.replicasManager with
    | some m => (none, { c1 with embeddedReplica := createConnection m catalog })
    | none => (none, c1)

/-- C1 counterexample: a connection whose catalog resolves to a fresh
replica (tracked sequence 10 against observed sequence 10) and a statement
classified as a read, yet the query is forwarded remotely because the
connection holds no open embedded-replica handle — the claimed
three-condition iff is violated. -/
theorem claim_C1_cex :
    queryUsesReplica ⟨none, some ⟨[("app", ⟨10, [], "app.db"⟩)]⟩, "app", 10⟩
      "SELECT 1".toList = false ∧
    isSelectQuery ("SELECT 1".toList) = true ∧
    isReplicaUpdated ⟨[("app", ⟨10, [], "app.db"⟩)]⟩ ("app") 10 = true := by
  decide

/-- C1 (amended): the query operation executes on the local replica iff the
connection holds an open embedded-replica handle, a replicas manager is
configured, the statement begins (after trimming, case-insensitively) with
SELECT, PRAGMA, EXPLAIN or WITH, and the manager resolves a replica for the
active catalog whose tracked sequence is at least the last observed one; in
every other case the statement is forwarded to the remote client. -/
theorem claim_C1 (c : HAConnectionState) (m : EmbeddedReplicasManager) (sql : List Char)
    (hm : c.replicasManager = some m) :
    queryUsesReplica c sql = true ↔
      (c.embeddedReplica.isSome = true ∧ isSelectQuery sql = true ∧
        isReplicaUpdated m c.replicationID c.clientTxseq = true) := by
  simp [queryUsesReplica, hm, Bool.and_eq_true, and_assoc]

/-- C1 witness: with an open handle, a configured manager, a read statement
and a fresh replica, the routing condition holds; the hypotheses of the
amended iff are discharged at concrete values. -/
theorem claim_C1_witness :
    (⟨some ("app.db"), some ⟨[("app", ⟨10, [], "app.db"⟩)]⟩, "app", 10⟩
        : HAConnectionState).replicasManager = some ⟨[("app", ⟨10, [], "app.db"⟩)]⟩ ∧
    (queryUsesReplica ⟨some ("app.db"), some ⟨[("app", ⟨10, [], "app.db"⟩)]⟩, "app", 10⟩
        "SELECT 1".toList = true ↔
      ((some ("app.db") : Option String).isSome = true ∧
        isSelectQuery ("SELECT 1".toList) = true ∧
        isReplicaUpdated ⟨[("app", ⟨10, [], "app.db"⟩)]⟩ ("app") 10 = true)) :=
  ⟨rfl, claim_C1 ⟨some ("app.db"), some ⟨[("app", ⟨10, [], "app.db"⟩)]⟩, "app", 10⟩
    ⟨[("app", ⟨10, [], "app.db"⟩)]⟩ "SELECT 1".toList rfl⟩

/-- C9: setCatalog with an empty name fails with the empty-catalog error and
returns the connection state completely unchanged. -/
theorem claim_C9 (c : HAConnectionState) :
    setCatalog c ("") = (some ("Catalog cannot be empty"), c) := rfl

/-! ## Parameter encoding (HAClient.send) -/

/-- Keys of a parameters collection: Map keys may be strings or numbers;
Object keys are always strings. -/
inductive ParamKey where
  | str (s : String)
  | num (n : Int)
deriving DecidableEq, Repr

/-- One encoded parameter as sent on the wire. -/
structure NamedValue where
  name : Option String
  ordinal : Int
  value : AnyValue
deriving DecidableEq, Repr

/-- Shape of one pushed parameter: a number key yields a name-less
parameter carrying the key as ordinal; any other key yields a named
parameter carrying the running counter as ordinal. -/
def paramShape (ordinal : Int) (k : ParamKey) (av : AnyValue) : NamedValue :=
  match k with
  | .str s => ⟨some s, ordinal, av⟩
  | .num n => ⟨none, n, av⟩

/-- Source parameter loop in HAClient.send: iterate the entries with a
running ordinal counter starting at 1 and incremented for every entry,
pushing one parameter per entry.  A value the codec cannot represent aborts
the loop with its error. -/
def encodeParamsAux (ordinal : Int) : List (ParamKey × JSValue) →
    Except String (List NamedValue)
  | [] => .ok []
  | (k, v) :: rest =>
    match toAny v with
    | .error e => .error e
    | .ok av =>
      match encodeParamsAux (ordinal + 1) rest with
      | .error e => .error e
      | .ok tail => .ok (paramShape ordinal k av :: tail)

/-- Parameter encoding with the counter at its initial value 1. -/
def encodeParams (entries : List (ParamKey × JSValue)) : Except String (List NamedValue) :=
  encodeParamsAux 1 entries

/-- Numeric value of a digit string. -/
def strToNat (s : String) : Nat :=
  s.toList.foldl (fun a c => a * 10 + (c.toNat - 48)) 0

/-- ECMAScript array-index test: the canonical decimal representation (all
digits, no leading zero except the string 0 itself) of an integer below
2^32 - 1. -/
def isArrayIndex (s : String) : Bool :=
  !s.isEmpty && s.toList.all Char.isDigit &&
    (s == "0" || s.toList.head? != some '0') && strToNat s < 4294967295

/-- Insertion into a list kept ascending by numeric key value.  Canonical
numeric strings have pairwise distinct values, so ties cannot arise among
object keys. -/
def insertByVal (x : String × JSValue) : List (String × JSValue) → List (String × JSValue)
  | [] => [x]
  | y :: ys => if strToNat x.1 < strToNat y.1 then x :: y :: ys else y :: insertByVal x ys

/-- Enumeration order of Object.entries per the ECMAScript ordinary
own-property-keys order: array-index keys first, in ascending numeric
order, then the remaining string keys in insertion order.  The input list
is the record in property insertion order. -/
def jsEntries (r : List (String × JSValue)) : List (String × JSValue) :=
  (r.filter (fun p => isArrayIndex p.1)).foldr insertByVal [] ++
    r.filter (fun p => !isArrayIndex p.1)

/-- Entries of a plain record as the parameter loop sees them:
Object.entries yields every key as a string, in the enumeration order
above. -/
def recordEntries (r : List (String × JSValue)) : List (ParamKey × JSValue) :=
  (jsEntries r).map (fun p => (ParamKey.str p.1, p.2))

theorem insertByVal_length (x : String × JSValue) :
    ∀ l, (insertByVal x l).length = l.length + 1 := by
  intro l
  induction l with
  | nil => rfl
  | cons y ys ih =>
    rw [insertByVal]
    by_cases h : strToNat x.1 < strToNat y.1
    · rw [if_pos h]
      rfl
    · rw [if_neg h, List.length_cons, List.length_cons, ih]

theorem foldr_insertByVal_length :
    ∀ l : List (String × JSValue), (l.foldr insertByVal []).length = l.length := by
  intro l
  induction l with
  | nil => rfl
  | cons y ys ih => rw [List.foldr_cons, insertByVal_length, ih, List.length_cons]

theorem filter_length_split (p : String × JSValue → Bool) :
    ∀ r : List (String × JSValue),
      (r.filter p).length + (r.filter (fun a => !(p a))).length = r.length := by
  intro r
  induction r with
  | nil => rfl
  | cons x xs ih =>
    rw [List.filter_cons, List.filter_cons]
    by_cases h : p x
    · rw [if_pos h, if_neg (by simp [h])]
      simp only [List.length_cons]
      omega
    · rw [if_neg (by simp [h]), if_pos (by simp [h])]
      simp only [List.length_cons]
      omega

theorem jsEntries_length (r : List (String × JSValue)) : (jsEntries r).length = r.length := by
  rw [jsEntries, List.length_append, foldr_insertByVal_length, filter_length_split]

theorem paramShape_shift (o : Int) (i : Nat) (k : ParamKey) (av : AnyValue) :
    paramShape (o + 1 + (i : Int)) k av = paramShape (o + ((i + 1 : Nat) : Int)) k av := by
  have h : o + 1 + (i : Int) = o + ((i + 1 : Nat) : Int) := by push_cast; ring
  cases k with
  | str s => simp only [paramShape, h]
  | num n => rfl

theorem encodeParamsAux_spec :
    ∀ (entries : List (ParamKey × JSValue)) (o : Int) (ps : List NamedValue),
      encodeParamsAux o entries = .ok ps →
      ps.length = entries.length ∧
      ∀ (i : Nat) (k : ParamKey) (v : JSValue), entries[i]? = some (k, v) →
        ∃ av, toAny v = .ok av ∧ ps[i]? = some (paramShape (o + (i : Int)) k av) := by
  intro entries
  induction entries with
  | nil =>
    intro o ps h
    rw [show encodeParamsAux o [] = Except.ok [] from rfl] at h
    cases h
    exact ⟨rfl, by intro i k v hi; simp at hi⟩
  | cons e rest ih =>
    intro o ps h
    obtain ⟨k0, v0⟩ := e
    rw [show encodeParamsAux o ((k0, v0) :: rest) =
        (match toAny v0 with
         | .error e => .error e
         | .ok av =>
           match encodeParamsAux (o + 1) rest with
           | .error e => .error e
           | .ok tail => .ok (paramShape o k0 av :: tail)) from rfl] at h
    rcases hv : toAny v0 with e0 | av0 <;> rw [hv] at h
    · exact absurd h (by simp)
    rcases hr : encodeParamsAux (o + 1) rest with e1 | tail <;> rw [hr] at h
    · exact absurd h (by simp)
    obtain ⟨hlen, hspec⟩ := ih (o + 1) tail hr
    have hps : ps = paramShape o k0 av0 :: tail := by
      cases h
      rfl
    subst hps
    refine ⟨by simp [hlen], ?_⟩
    intro i k v hi
    cases i with
    | zero =>
      simp only [List.getElem?_cons_zero, Option.some.injEq, Prod.mk.injEq] at hi
      obtain ⟨hk, hv2⟩ := hi
      subst hk
      subst hv2
      exact ⟨av0, hv, by simp [paramShape]⟩
    | succ i =>
      simp only [List.getElem?_cons_succ] at hi
      obtain ⟨av, hav, hps2⟩ := hspec i k v hi
      refine ⟨av, hav, ?_⟩
      rw [List.getElem?_cons_succ, hps2, paramShape_shift]

/-- C10 counterexample: in the record with key x inserted first and the
numeric-looking key 1 inserted second, Object.entries enumerates the
array-index key 1 first, so the first-inserted entry x is sent with
ordinal 2 — not with its insertion position 1 as the claim asserts. -/
theorem claim_C10_cex :
    encodeParams (recordEntries [(("x"), JSValue.null), (("1"), JSValue.null)]) =
      .ok [⟨some ("1"), 1, ⟨typeUrlBase ++ "Empty", []⟩⟩,
           ⟨some ("x"), 2, ⟨typeUrlBase ++ "Empty", []⟩⟩] ∧
    (2 : Int) ≠ 1 := by
  decide

/-- C10 (amended): in the parameter loop, every entry of a plain record is
sent as a named parameter whose name is the object key (itself a string,
even when it looks numeric) and whose ordinal is its position, starting at
1, in the Object.entries enumeration order — array-index keys first in
ascending numeric order, then the remaining keys in insertion order — which
is the insertion order only in the absence of numeric-looking keys; a
name-less positional parameter arises exactly from a Map entry whose key is
a number, and it keeps that number as its ordinal. -/
theorem claim_C10 (r : List (String × JSValue)) (entries : List (ParamKey × JSValue))
    (ps qs : List NamedValue) (i j : Nat) (p : String × JSValue) (kj : ParamKey)
    (vj : JSValue)
    (hr : encodeParams (recordEntries r) = .ok ps)
    (hip : (jsEntries r)[i]? = some p)
    (he : encodeParams entries = .ok qs)
    (hj : entries[j]? = some (kj, vj)) :
    ps.length = r.length ∧
    (∃ av, toAny p.2 = .ok av ∧ ps[i]? = some ⟨some p.1, 1 + (i : Int), av⟩) ∧
    (∀ nv, qs[j]? = some nv →
      ((nv.name = none ↔ ∃ n, kj = ParamKey.num n) ∧
        ∀ n, kj = ParamKey.num n → nv.ordinal = n)) := by
  obtain ⟨hlen, hspec⟩ := encodeParamsAux_spec (recordEntries r) 1 ps hr
  obtain ⟨hlenq, hspecq⟩ := encodeParamsAux_spec entries 1 qs he
  have hlenr : ps.length = r.length := by
    rw [hlen]
    simp [recordEntries, jsEntries_length]
  refine ⟨hlenr, ?_, ?_⟩
  · have hre : (recordEntries r)[i]? = some (ParamKey.str p.1, p.2) := by
      simp only [recordEntries, List.getElem?_map, hip]
      rfl
    obtain ⟨av, hav, hps⟩ := hspec i _ _ hre
    exact ⟨av, hav, hps⟩
  · intro nv hnv
    obtain ⟨av, hav, hps⟩ := hspecq j kj vj hj
    rw [hps] at hnv
    cases hnv
    cases kj with
    | str s =>
      refine ⟨⟨fun hc => ?_, fun hc => ?_⟩, fun n hn => by cases hn⟩
      · simp [paramShape] at hc
      · obtain ⟨n, hn⟩ := hc
        cases hn
    | num n =>
      refine ⟨⟨fun _ => ⟨n, rfl⟩, fun _ => ?_⟩, fun n2 hn2 => ?_⟩
      · simp [paramShape]
      · cases hn2
        simp [paramShape]

/-- C10 witness: the record with key x inserted first and the array-index
key 1 inserted second; the enumeration puts the key 1 first with ordinal 1
and x second with ordinal 2; a Map-style number key 5 yields a name-less
parameter with ordinal 5. -/
theorem claim_C10_witness :
    (encodeParams (recordEntries [("x", JSValue.null), ("1", JSValue.bool true)]) =
        .ok [⟨some ("1"), 1, ⟨typeUrlBase ++ "BoolValue", [0x08, 1]⟩⟩,
             ⟨some ("x"), 2, ⟨typeUrlBase ++ "Empty", []⟩⟩] ∧
      (jsEntries [("x", JSValue.null), ("1", JSValue.bool true)])[0]? =
        some ("1", JSValue.bool true) ∧
      encodeParams [(ParamKey.num 5, JSValue.null)] =
        .ok [⟨none, 5, ⟨typeUrlBase ++ "Empty", []⟩⟩] ∧
      ([(ParamKey.num 5, JSValue.null)] : List (ParamKey × JSValue))[0]? =
        some (ParamKey.num 5, JSValue.null)) ∧
    ([⟨some ("1"), 1, ⟨typeUrlBase ++ "BoolValue", [0x08, 1]⟩⟩,
      ⟨some ("x"), 2, ⟨typeUrlBase ++ "Empty", []⟩⟩] : List NamedValue).length =
      ([("x", JSValue.null), ("1", JSValue.bool true)] : List (String × JSValue)).length ∧
    (∃ av, toAny (("1", JSValue.bool true) : String × JSValue).2 = .ok av ∧
      ([⟨some ("1"), 1, ⟨typeUrlBase ++ "BoolValue", [0x08, 1]⟩⟩,
        ⟨some ("x"), 2, ⟨typeUrlBase ++ "Empty", []⟩⟩] : List NamedValue)[0]? =
        some ⟨some (("1", JSValue.bool true) : String × JSValue).1,
          1 + ((0 : Nat) : Int), av⟩) ∧
    (∀ nv, ([⟨none, 5, ⟨typeUrlBase ++ "Empty", []⟩⟩] : List NamedValue)[0]? = some nv →
      ((nv.name = none ↔ ∃ n, ParamKey.num 5 = ParamKey.num n) ∧
        ∀ n, ParamKey.num 5 = ParamKey.num n → nv.ordinal = n)) :=
  ⟨⟨by decide, by decide, by decide, by decide⟩,
    claim_C10 [("x", JSValue.null), ("1", JSValue.bool true)]
      [(ParamKey.num 5, JSValue.null)]
      [⟨some ("1"), 1, ⟨typeUrlBase ++ "BoolValue", [0x08, 1]⟩⟩,
       ⟨some ("x"), 2, ⟨typeUrlBase ++ "Empty", []⟩⟩]
      [⟨none, 5, ⟨typeUrlBase ++ "Empty", []⟩⟩] 0 0 ("1", JSValue.bool true)
      (ParamKey.num 5) JSValue.null
      (by decide) (by decide) (by decide) (by decide)⟩

end NodejsHA
